import Mathlib

/-!
Shallow embedding of the position-reconciliation engine of
`auto_trade_all_markets.py` (class `MultiMarketTrader`).

Python floats are modelled as rationals (ℚ), unit counts as integers (ℤ),
timestamps as naturals, and the `self.positions` dict as a function
`String → Option PositionRecord`.  The external HTTP collaborators
(`get_realtime_position`, `get_history_position`, `get_current_price`)
are out of scope per the spec; their results enter the embedded functions
as `Option ℚ` arguments.
-/

namespace UQTool

/-- Embeds the `MarketType` enum (the enum's string values are irrelevant
to the reconciliation logic and are dropped). -/
inductive MarketType where
  | STOCK
  | FUTURES
  | FOREX
  | OPTION
  | GOLD
  | INDEX
  | BOND
  | FUND
  deriving DecidableEq

/-- Embeds `SymbolInfo.__init__`. -/
structure SymbolInfo where
  symbol : String
  market_type : MarketType
  name : String
  allow_short : Bool
  leverage : ℤ
  per_symbol_capital : ℚ
  deriving DecidableEq

/-- The `min_lots` column of `init_market_config` (every market key is
present in the table, so the `.get(..., 1)` default in
`calculate_target_units` never fires). -/
def min_lots : MarketType → ℤ
  | .STOCK => 100
  | .FUTURES => 1
  | .FOREX => 1000
  | .OPTION => 1
  | .GOLD => 1
  | .INDEX => 1
  | .BOND => 1
  | .FUND => 1

/-- Embeds the per-symbol dict stored in `self.positions`.  The last five
fields are written by `execute_position_adjustment`; the read-default in
that function carries only the first four keys, and the remaining fields
are never read on that path, so `default_position` fills them with fixed
placeholders. -/
structure PositionRecord where
  target_position : ℚ
  current_units : ℤ
  position_type : String
  allocated_capital : ℚ
  last_update : ℕ
  reason : String
  market_type : MarketType
  symbol_name : String
  leverage : ℤ
  deriving DecidableEq

/-- The ledger `self.positions`: at most one record per symbol key. -/
def Positions : Type := String → Option PositionRecord

/-- The defaulted record used by
`self.positions.get(symbol_key, {...})` in `execute_position_adjustment`:
`target_position = 0.0`, `current_units = 0`, `position_type = 'flat'`,
`allocated_capital = symbol_info.per_symbol_capital`.  The remaining
fields are placeholders never read by the embedded code. -/
def default_position (sym : SymbolInfo) : PositionRecord :=
  { target_position := 0
    current_units := 0
    position_type := "flat"
    allocated_capital := sym.per_symbol_capital
    last_update := 0
    reason := ""
    market_type := sym.market_type
    symbol_name := sym.name
    leverage := sym.leverage }

/-- The ledger before any reconciliation ran: `self.positions = {}`. -/
def empty_positions : Positions := fun _ => none

/-- Python `int()` applied to a float: truncation toward zero. -/
def pyInt (q : ℚ) : ℤ := if 0 ≤ q then ⌊q⌋ else -⌊-q⌋

/-- Embeds `calculate_target_units`.  The price fetched inside the Python
function is passed in as `current_price : Option ℚ`; `None` or a price
`≤ 0` makes the function log an error and return `0`. -/
def calculate_target_units (sym : SymbolInfo) (current_price : Option ℚ)
    (target_position : ℚ) : ℤ :=
  match current_price with
  | none => 0
  | some price =>
    if price ≤ 0 then 0
    else
      let lots : ℤ := min_lots sym.market_type
      let effective_capital : ℚ := sym.per_symbol_capital * (sym.leverage : ℚ)
      let target_value : ℚ := effective_capital * target_position
      if 0 ≤ target_position then
        pyInt (|target_value| / price / (lots : ℚ)) * lots
      else
        -(pyInt (|target_value| / price / (lots : ℚ)) * lots)

/-- Embeds `get_position_action` (the `allow_short` argument is accepted
and ignored, exactly as in the source). -/
def get_position_action (old_position new_position : ℚ)
    (allow_short : Bool) : String :=
  if old_position = 0 then
    if new_position > 0 then "建多仓"
    else if new_position < 0 then "建空仓"
    else "保持不变"
  else if old_position > 0 then
    if new_position = 0 then "平多仓"
    else if new_position < 0 then "多转空"
    else if new_position > old_position then "增多仓"
    else if new_position < old_position then "减多仓"
    else "保持不变"
  else
    if new_position = 0 then "平空仓"
    else if new_position > 0 then "空转多"
    else if |new_position| > |old_position| then "增空仓"
    else if |new_position| < |old_position| then "减空仓"
    else "保持不变"

/-- The inline expression
`'long' if target_position > 0 else ('short' if target_position < 0 else 'flat')`
of `execute_position_adjustment`. -/
def position_type_of (target_position : ℚ) : String :=
  if target_position > 0 then "long"
  else if target_position < 0 then "short"
  else "flat"

/-- Embeds `execute_position_adjustment`: reads the current record (with
the four-key default), classifies the move, returns the ledger unchanged
on `"保持不变"`, and otherwise overwrites the symbol's record. -/
def execute_position_adjustment (positions : Positions) (sym : SymbolInfo)
    (current_price : Option ℚ) (target_position : ℚ)
    (reason : String) (now : ℕ) : Positions :=
  let current_pos := (positions sym.symbol).getD (default_position sym)
  let old_position := current_pos.target_position
  let allocated_capital := current_pos.allocated_capital
  let action := get_position_action old_position target_position sym.allow_short
  if action = "保持不变" then positions
  else
    let target_units := calculate_target_units sym current_price target_position
    fun key =>
      if key = sym.symbol then
        some { target_position := target_position
               current_units := target_units
               position_type := position_type_of target_position
               allocated_capital := allocated_capital
               last_update := now
               reason := reason
               market_type := sym.market_type
               symbol_name := sym.name
               leverage := sym.leverage }
      else positions key

/-- The clamp-and-suppress block repeated verbatim in
`sync_all_positions`, `check_and_sync_morning` and `check_and_sync_late`:
`target_position = max(-1.0, min(1.0, target_position))` followed by
`if not symbol_info.allow_short and target_position < 0: target_position = 0.0`. -/
def normalize_exposure (allow_short : Bool) (raw : ℚ) : ℚ :=
  let clamped := max (-1) (min 1 raw)
  if allow_short = false ∧ clamped < 0 then 0 else clamped

/-- The per-symbol loop body of `sync_all_positions` (startup sync):
a failed fetch (`None`) leaves the ledger untouched; otherwise the
fetched value is normalized and `execute_position_adjustment` runs. -/
def sync_one (positions : Positions) (sym : SymbolInfo) (fetched : Option ℚ)
    (current_price : Option ℚ) (reason : String) (now : ℕ) : Positions :=
  match fetched with
  | none => positions
  | some raw =>
    execute_position_adjustment positions sym current_price
      (normalize_exposure sym.allow_short raw) reason now

/-- One batch input: the instrument together with the collaborator
results (fetched exposure and current price) for this cycle. -/
structure SyncInput where
  sym : SymbolInfo
  fetched : Option ℚ
  current_price : Option ℚ
  deriving DecidableEq

/-- Embeds the loop of `sync_all_positions` over `self.symbols`. -/
def sync_all_positions (positions : Positions) (batch : List SyncInput)
    (reason : String) (now : ℕ) : Positions :=
  batch.foldl
    (fun ps inp => sync_one ps inp.sym inp.fetched inp.current_price reason now)
    positions

/-- The per-symbol loop body shared by `check_and_sync_morning` and
`check_and_sync_late`: normalize the fetched value, read the stored
exposure (default `0.0` when the symbol has no record), and only call
`execute_position_adjustment` when
`abs(target_position - old_position) > 0.001`. -/
def check_and_sync_one (positions : Positions) (sym : SymbolInfo)
    (fetched : Option ℚ) (current_price : Option ℚ)
    (reason : String) (now : ℕ) : Positions :=
  match fetched with
  | none => positions
  | some raw =>
    let target_position := normalize_exposure sym.allow_short raw
    let old_position :=
      ((positions sym.symbol).map PositionRecord.target_position).getD 0
    if |target_position - old_position| > 1 / 1000 then
      execute_position_adjustment positions sym current_price target_position
        reason now
    else positions

/-- Embeds the loop of `check_and_sync_morning` / `check_and_sync_late`
over `self.symbols`. -/
def check_and_sync_all (positions : Positions) (batch : List SyncInput)
    (reason : String) (now : ℕ) : Positions :=
  batch.foldl
    (fun ps inp =>
      check_and_sync_one ps inp.sym inp.fetched inp.current_price reason now)
    positions

/-- Which reconciliation entry point ran: `startup_sync` (via
`sync_all_positions`), `check_and_sync_morning`, or `check_and_sync_late`. -/
inductive SyncKind where
  | startup
  | morning
  | late
  deriving DecidableEq

/-- One scheduled reconciliation run over a batch of instruments. -/
structure SyncRun where
  kind : SyncKind
  batch : List SyncInput
  reason : String
  now : ℕ
  deriving DecidableEq

/-- Applies one reconciliation run to the ledger. -/
def apply_run (positions : Positions) (run : SyncRun) : Positions :=
  match run.kind with
  | .startup => sync_all_positions positions run.batch run.reason run.now
  | .morning => check_and_sync_all positions run.batch run.reason run.now
  | .late => check_and_sync_all positions run.batch run.reason run.now

/-- The ledger reached from process start (`self.positions = {}`) by a
sequence of reconciliation runs. -/
def run_all (runs : List SyncRun) : Positions :=
  runs.foldl apply_run empty_positions

/-! Spec-side definitions, written from the spec's words, used to compare
the source functions against the spec (refinement claims). -/

/-- The spec's `TransitionKind` tagged variant (section 4.3). -/
inductive TransitionKind where
  | Unchanged
  | OpenLong
  | OpenShort
  | CloseLong
  | CloseShort
  | FlipLongToShort
  | FlipShortToLong
  | IncreaseLong
  | DecreaseLong
  | IncreaseShort
  | DecreaseShort
  deriving DecidableEq

/-- Modelled from the spec: the decision table of section 4.3
(`classify(oldExposure, newExposure)`), row by row. -/
def classifySpec (old new : ℚ) : TransitionKind :=
  if old = 0 then
    if new > 0 then .OpenLong
    else if new < 0 then .OpenShort
    else .Unchanged
  else if old > 0 then
    if new = 0 then .CloseLong
    else if new < 0 then .FlipLongToShort
    else if new > old then .IncreaseLong
    else if new < old then .DecreaseLong
    else .Unchanged
  else
    if new = 0 then .CloseShort
    else if new > 0 then .FlipShortToLong
    else if |new| > |old| then .IncreaseShort
    else if |new| < |old| then .DecreaseShort
    else .Unchanged

/-- The correspondence between the spec's transition kinds and the action
strings returned by `get_position_action`. -/
def kindString : TransitionKind → String
  | .Unchanged => "保持不变"
  | .OpenLong => "建多仓"
  | .OpenShort => "建空仓"
  | .CloseLong => "平多仓"
  | .CloseShort => "平空仓"
  | .FlipLongToShort => "多转空"
  | .FlipShortToLong => "空转多"
  | .IncreaseLong => "增多仓"
  | .DecreaseLong => "减多仓"
  | .IncreaseShort => "增空仓"
  | .DecreaseShort => "减空仓"

/-- Modelled from the spec: `positionType` derived from `unitCount`'s
sign (Long if `unitCount > 0`, Short if `< 0`, Flat if `= 0`), rendered
with the source's strings. -/
def position_type_from_units (units : ℤ) : String :=
  if units > 0 then "long"
  else if units < 0 then "short"
  else "flat"

/-- The record written by the non-`"保持不变"` branch of
`execute_position_adjustment`. -/
def written_record (ps : Positions) (sym : SymbolInfo) (price : Option ℚ)
    (tp : ℚ) (reason : String) (now : ℕ) : PositionRecord :=
  { target_position := tp
    current_units := calculate_target_units sym price tp
    position_type := position_type_of tp
    allocated_capital := ((ps sym.symbol).getD (default_position sym)).allocated_capital
    last_update := now
    reason := reason
    market_type := sym.market_type
    symbol_name := sym.name
    leverage := sym.leverage }

/-- The ledger invariant behind claim C2 as amended: every stored record
has `position_type` derived from the sign of its `target_position`. -/
def type_ok (ps : Positions) (key : String) : Prop :=
  ∀ r, ps key = some r → r.position_type = position_type_of r.target_position

/-- The ledger invariant behind claim C3: the record under `key` (when
present) holds a nonnegative exposure and a nonnegative unit count. -/
def long_only_ok (ps : Positions) (key : String) : Prop :=
  ∀ r, ps key = some r → 0 ≤ r.target_position ∧ 0 ≤ r.current_units

/-! Helper lemmas shared by the claim theorems. -/

lemma min_lots_pos (m : MarketType) : 0 < min_lots m := by
  cases m <;> decide

lemma pyInt_of_nonneg {q : ℚ} (h : 0 ≤ q) : pyInt q = ⌊q⌋ := if_pos h

lemma gpa_eq_kindString (old new : ℚ) (s : Bool) :
    get_position_action old new s = kindString (classifySpec old new) := by
  unfold get_position_action classifySpec
  split_ifs <;> rfl

lemma classify_self (x : ℚ) : classifySpec x x = .Unchanged := by
  unfold classifySpec
  rcases lt_trichotomy x 0 with h | h | h
  · rw [if_neg h.ne, if_neg (not_lt.2 h.le), if_neg h.ne, if_neg (not_lt.2 h.le),
      if_neg (lt_irrefl |x|), if_neg (lt_irrefl |x|)]
  · subst h
    rw [if_pos rfl, if_neg (lt_irrefl (0 : ℚ)), if_neg (lt_irrefl (0 : ℚ))]
  · rw [if_neg (ne_of_gt h), if_pos h, if_neg (ne_of_gt h), if_neg (not_lt.2 h.le),
      if_neg (lt_irrefl x), if_neg (lt_irrefl x)]

lemma gpa_self (x : ℚ) (s : Bool) : get_position_action x x s = "保持不变" := by
  rw [gpa_eq_kindString, classify_self]
  rfl

lemma execute_noop (ps : Positions) (sym : SymbolInfo) (price : Option ℚ)
    (tp : ℚ) (reason : String) (now : ℕ)
    (h : get_position_action
        (((ps sym.symbol).getD (default_position sym)).target_position)
        tp sym.allow_short = "保持不变") :
    execute_position_adjustment ps sym price tp reason now = ps := by
  simp only [execute_position_adjustment]
  rw [if_pos h]

lemma execute_write (ps : Positions) (sym : SymbolInfo) (price : Option ℚ)
    (tp : ℚ) (reason : String) (now : ℕ)
    (h : get_position_action
        (((ps sym.symbol).getD (default_position sym)).target_position)
        tp sym.allow_short ≠ "保持不变") :
    execute_position_adjustment ps sym price tp reason now =
      fun key => if key = sym.symbol
        then some (written_record ps sym price tp reason now)
        else ps key := by
  simp only [execute_position_adjustment, written_record]
  rw [if_neg h]

lemma execute_apply (ps : Positions) (sym : SymbolInfo) (price : Option ℚ)
    (tp : ℚ) (reason : String) (now : ℕ) (key : String) :
    (execute_position_adjustment ps sym price tp reason now) key = ps key ∨
    (execute_position_adjustment ps sym price tp reason now) key =
      some (written_record ps sym price tp reason now) := by
  by_cases h : get_position_action
      (((ps sym.symbol).getD (default_position sym)).target_position)
      tp sym.allow_short = "保持不变"
  · left
    rw [execute_noop ps sym price tp reason now h]
  · by_cases hk : key = sym.symbol
    · right
      rw [execute_write ps sym price tp reason now h]
      simp only [if_pos hk]
    · left
      rw [execute_write ps sym price tp reason now h]
      simp only [if_neg hk]

lemma execute_apply_eq (ps : Positions) (sym : SymbolInfo) (price : Option ℚ)
    (tp : ℚ) (reason : String) (now : ℕ)
    (h : get_position_action
        (((ps sym.symbol).getD (default_position sym)).target_position)
        tp sym.allow_short ≠ "保持不变") :
    (execute_position_adjustment ps sym price tp reason now) sym.symbol =
      some (written_record ps sym price tp reason now) := by
  rw [execute_write ps sym price tp reason now h]
  simp only [if_pos rfl, if_true]

lemma execute_apply_ne (ps : Positions) (sym : SymbolInfo) (price : Option ℚ)
    (tp : ℚ) (reason : String) (now : ℕ) (key : String) (hk : key ≠ sym.symbol) :
    (execute_position_adjustment ps sym price tp reason now) key = ps key := by
  by_cases h : get_position_action
      (((ps sym.symbol).getD (default_position sym)).target_position)
      tp sym.allow_short = "保持不变"
  · rw [execute_noop ps sym price tp reason now h]
  · rw [execute_write ps sym price tp reason now h]
    simp only [if_neg hk]

lemma sync_one_eq_execute (ps : Positions) (sym : SymbolInfo) (raw : ℚ)
    (price : Option ℚ) (reason : String) (now : ℕ) :
    sync_one ps sym (some raw) price reason now =
      execute_position_adjustment ps sym price
        (normalize_exposure sym.allow_short raw) reason now := rfl

lemma check_one_eq (ps : Positions) (sym : SymbolInfo) (raw : ℚ)
    (price : Option ℚ) (reason : String) (now : ℕ) :
    check_and_sync_one ps sym (some raw) price reason now =
      if |normalize_exposure sym.allow_short raw -
            ((ps sym.symbol).map PositionRecord.target_position).getD 0| > 1 / 1000
      then execute_position_adjustment ps sym price
        (normalize_exposure sym.allow_short raw) reason now
      else ps := rfl

lemma calculate_nonneg (sym : SymbolInfo) (price : Option ℚ) {tp : ℚ}
    (h : 0 ≤ tp) : 0 ≤ calculate_target_units sym price tp := by
  cases price with
  | none => exact le_refl 0
  | some p =>
    simp only [calculate_target_units]
    split_ifs with hp
    · exact le_refl 0
    · have hp' : 0 < p := not_le.1 hp
      have hL : (0 : ℚ) < (min_lots sym.market_type : ℚ) := by
        exact_mod_cast min_lots_pos sym.market_type
      have hx : 0 ≤ |sym.per_symbol_capital * (sym.leverage : ℚ) * tp| / p /
          (min_lots sym.market_type : ℚ) :=
        div_nonneg (div_nonneg (abs_nonneg _) hp'.le) hL.le
      rw [pyInt_of_nonneg hx]
      exact mul_nonneg (Int.floor_nonneg.2 hx) (min_lots_pos sym.market_type).le

lemma normalize_nonneg_of_noshort (raw : ℚ) :
    0 ≤ normalize_exposure false raw := by
  simp only [normalize_exposure]
  split_ifs with h
  · exact le_refl 0
  · exact not_lt.1 fun hc => h ⟨trivial, hc⟩

lemma type_ok_execute (ps : Positions) (sym : SymbolInfo) (price : Option ℚ)
    (tp : ℚ) (reason : String) (now : ℕ) (key : String)
    (h : type_ok ps key) :
    type_ok (execute_position_adjustment ps sym price tp reason now) key := by
  intro r hr
  rcases execute_apply ps sym price tp reason now key with he | he
  · rw [he] at hr
    exact h r hr
  · rw [he] at hr
    obtain rfl := Option.some.inj hr
    rfl

lemma long_only_execute (ps : Positions) (sym : SymbolInfo) (price : Option ℚ)
    (tp : ℚ) (reason : String) (now : ℕ) (key : String) (htp : 0 ≤ tp)
    (h : long_only_ok ps key) :
    long_only_ok (execute_position_adjustment ps sym price tp reason now) key := by
  intro r hr
  rcases execute_apply ps sym price tp reason now key with he | he
  · rw [he] at hr
    exact h r hr
  · rw [he] at hr
    obtain rfl := Option.some.inj hr
    exact ⟨htp, calculate_nonneg sym price htp⟩

lemma long_only_execute_normalized (ps : Positions) (sym : SymbolInfo)
    (price : Option ℚ) (raw : ℚ) (reason : String) (now : ℕ) (key : String)
    (hc : sym.symbol = key → sym.allow_short = false)
    (h : long_only_ok ps key) :
    long_only_ok (execute_position_adjustment ps sym price
      (normalize_exposure sym.allow_short raw) reason now) key := by
  by_cases hk : sym.symbol = key
  · refine long_only_execute ps sym price _ reason now key ?_ h
    rw [hc hk]
    exact normalize_nonneg_of_noshort raw
  · intro r hr
    rw [execute_apply_ne ps sym price _ reason now key
      (fun he => hk he.symm)] at hr
    exact h r hr

lemma type_ok_sync_one (ps : Positions) (sym : SymbolInfo) (f price : Option ℚ)
    (reason : String) (now : ℕ) (key : String) (h : type_ok ps key) :
    type_ok (sync_one ps sym f price reason now) key := by
  cases f with
  | none => exact h
  | some raw =>
    rw [sync_one_eq_execute]
    exact type_ok_execute ps sym price _ reason now key h

lemma long_only_sync_one (ps : Positions) (sym : SymbolInfo) (f price : Option ℚ)
    (reason : String) (now : ℕ) (key : String)
    (hc : sym.symbol = key → sym.allow_short = false)
    (h : long_only_ok ps key) :
    long_only_ok (sync_one ps sym f price reason now) key := by
  cases f with
  | none => exact h
  | some raw =>
    rw [sync_one_eq_execute]
    exact long_only_execute_normalized ps sym price raw reason now key hc h

lemma type_ok_check_one (ps : Positions) (sym : SymbolInfo) (f price : Option ℚ)
    (reason : String) (now : ℕ) (key : String) (h : type_ok ps key) :
    type_ok (check_and_sync_one ps sym f price reason now) key := by
  cases f with
  | none => exact h
  | some raw =>
    rw [check_one_eq]
    split_ifs with hd
    · exact type_ok_execute ps sym price _ reason now key h
    · exact h

lemma long_only_check_one (ps : Positions) (sym : SymbolInfo) (f price : Option ℚ)
    (reason : String) (now : ℕ) (key : String)
    (hc : sym.symbol = key → sym.allow_short = false)
    (h : long_only_ok ps key) :
    long_only_ok (check_and_sync_one ps sym f price reason now) key := by
  cases f with
  | none => exact h
  | some raw =>
    rw [check_one_eq]
    split_ifs with hd
    · exact long_only_execute_normalized ps sym price raw reason now key hc h
    · exact h

lemma type_ok_sync_all (key : String) (reason : String) (now : ℕ) :
    ∀ (batch : List SyncInput) (ps : Positions), type_ok ps key →
      type_ok (sync_all_positions ps batch reason now) key := by
  intro batch
  induction batch with
  | nil => exact fun ps h => h
  | cons a l ih =>
    intro ps h
    simp only [sync_all_positions, List.foldl_cons]
    exact ih (sync_one ps a.sym a.fetched a.current_price reason now)
      (type_ok_sync_one ps a.sym a.fetched a.current_price reason now key h)

lemma type_ok_check_all (key : String) (reason : String) (now : ℕ) :
    ∀ (batch : List SyncInput) (ps : Positions), type_ok ps key →
      type_ok (check_and_sync_all ps batch reason now) key := by
  intro batch
  induction batch with
  | nil => exact fun ps h => h
  | cons a l ih =>
    intro ps h
    simp only [check_and_sync_all, List.foldl_cons]
    exact ih (check_and_sync_one ps a.sym a.fetched a.current_price reason now)
      (type_ok_check_one ps a.sym a.fetched a.current_price reason now key h)

lemma long_only_sync_all (key : String) (reason : String) (now : ℕ) :
    ∀ (batch : List SyncInput) (ps : Positions),
      (∀ inp ∈ batch, inp.sym.symbol = key → inp.sym.allow_short = false) →
      long_only_ok ps key →
      long_only_ok (sync_all_positions ps batch reason now) key := by
  intro batch
  induction batch with
  | nil => exact fun ps _ h => h
  | cons a l ih =>
    intro ps hb h
    simp only [sync_all_positions, List.foldl_cons]
    exact ih (sync_one ps a.sym a.fetched a.current_price reason now)
      (fun inp hi => hb inp (List.mem_cons_of_mem a hi))
      (long_only_sync_one ps a.sym a.fetched a.current_price reason now key
        (hb a (List.mem_cons_self a l)) h)

lemma long_only_check_all (key : String) (reason : String) (now : ℕ) :
    ∀ (batch : List SyncInput) (ps : Positions),
      (∀ inp ∈ batch, inp.sym.symbol = key → inp.sym.allow_short = false) →
      long_only_ok ps key →
      long_only_ok (check_and_sync_all ps batch reason now) key := by
  intro batch
  induction batch with
  | nil => exact fun ps _ h => h
  | cons a l ih =>
    intro ps hb h
    simp only [check_and_sync_all, List.foldl_cons]
    exact ih (check_and_sync_one ps a.sym a.fetched a.current_price reason now)
      (fun inp hi => hb inp (List.mem_cons_of_mem a hi))
      (long_only_check_one ps a.sym a.fetched a.current_price reason now key
        (hb a (List.mem_cons_self a l)) h)

lemma type_ok_apply_run (run : SyncRun) (ps : Positions) (key : String)
    (h : type_ok ps key) : type_ok (apply_run ps run) key := by
  rcases run with ⟨kind, batch, reason, now⟩
  cases kind with
  | startup => exact type_ok_sync_all key reason now batch ps h
  | morning => exact type_ok_check_all key reason now batch ps h
  | late => exact type_ok_check_all key reason now batch ps h

lemma long_only_apply_run (run : SyncRun) (ps : Positions) (key : String)
    (hb : ∀ inp ∈ run.batch, inp.sym.symbol = key → inp.sym.allow_short = false)
    (h : long_only_ok ps key) : long_only_ok (apply_run ps run) key := by
  rcases run with ⟨kind, batch, reason, now⟩
  cases kind with
  | startup => exact long_only_sync_all key reason now batch ps hb h
  | morning => exact long_only_check_all key reason now batch ps hb h
  | late => exact long_only_check_all key reason now batch ps hb h

lemma type_ok_foldl (key : String) :
    ∀ (runs : List SyncRun) (ps : Positions), type_ok ps key →
      type_ok (runs.foldl apply_run ps) key := by
  intro runs
  induction runs with
  | nil => exact fun ps h => h
  | cons a l ih =>
    intro ps h
    simp only [List.foldl_cons]
    exact ih (apply_run ps a) (type_ok_apply_run a ps key h)

lemma long_only_foldl (key : String) :
    ∀ (runs : List SyncRun) (ps : Positions),
      (∀ run ∈ runs, ∀ inp ∈ run.batch,
        inp.sym.symbol = key → inp.sym.allow_short = false) →
      long_only_ok ps key → long_only_ok (runs.foldl apply_run ps) key := by
  intro runs
  induction runs with
  | nil => exact fun ps _ h => h
  | cons a l ih =>
    intro ps hb h
    simp only [List.foldl_cons]
    exact ih (apply_run ps a)
      (fun run hr => hb run (List.mem_cons_of_mem a hr))
      (long_only_apply_run a ps key (hb a (List.mem_cons_self a l)) h)

lemma type_ok_empty (key : String) : type_ok empty_positions key := by
  intro r hr
  simp [empty_positions] at hr

lemma long_only_empty (key : String) : long_only_ok empty_positions key := by
  intro r hr
  simp [empty_positions] at hr

lemma isSome_execute (ps : Positions) (sym : SymbolInfo) (price : Option ℚ)
    (tp : ℚ) (reason : String) (now : ℕ) (key : String)
    (h : (ps key).isSome) :
    ((execute_position_adjustment ps sym price tp reason now) key).isSome := by
  rcases execute_apply ps sym price tp reason now key with he | he <;> rw [he]
  · exact h
  · rfl

lemma normalize_eq (short : Bool) (e : ℚ) :
    normalize_exposure short e =
      if short = false ∧ max (-1) (min 1 e) < 0 then 0
      else max (-1) (min 1 e) := rfl

/-! The claim theorems. -/

/-- C4 (confirmed): the transition classifier `get_position_action` is a
total function agreeing, on every real pair `(oldExposure, newExposure)`,
with the spec's decision table `classifySpec` (old = 0 gives
OpenLong/OpenShort/Unchanged by new's sign; old > 0 gives CloseLong,
FlipLongToShort, IncreaseLong, DecreaseLong, Unchanged; old < 0 gives
CloseShort, FlipShortToLong, IncreaseShort, DecreaseShort, Unchanged); in
particular `classify(x, x) = Unchanged` for every `x`. -/
theorem C4_classifier_matches_spec_table :
    (∀ (old new : ℚ) (s : Bool),
      get_position_action old new s = kindString (classifySpec old new)) ∧
    (∀ (x : ℚ) (s : Bool),
      get_position_action x x s = kindString TransitionKind.Unchanged) :=
  ⟨gpa_eq_kindString, fun x s => gpa_self x s⟩

/-- C6 (confirmed): normalization forces a negative raw exposure to 0
when shorting is disallowed and otherwise clamps into `[-1, 1]`; the
result always lies in `[-1, 1]` and normalization is idempotent. -/
theorem C6_normalize_clamp_suppress :
    ∀ (short : Bool) (e : ℚ),
      (short = false → e < 0 → normalize_exposure short e = 0) ∧
      (¬(short = false ∧ e < 0) →
        normalize_exposure short e = max (-1) (min 1 e)) ∧
      (-1 ≤ normalize_exposure short e ∧ normalize_exposure short e ≤ 1) ∧
      normalize_exposure short (normalize_exposure short e) =
        normalize_exposure short e := by
  intro short e
  have hlb : (-1 : ℚ) ≤ max (-1) (min 1 e) := le_max_left _ _
  have hub : max (-1) (min 1 e) ≤ 1 := max_le (by norm_num) (min_le_left _ _)
  have hneg_iff : max (-1) (min 1 e) < 0 → e < 0 := by
    intro hneg
    by_contra hee
    push_neg at hee
    have h1 : (0 : ℚ) ≤ min 1 e := le_min (by norm_num) hee
    have h2 : (0 : ℚ) ≤ max (-1) (min 1 e) := le_trans h1 (le_max_right _ _)
    linarith
  refine ⟨?_, ?_, ?_, ?_⟩
  · intro hs he
    rw [normalize_eq]
    have h1 : min 1 e < 0 := lt_of_le_of_lt (min_le_right _ _) he
    exact if_pos ⟨hs, max_lt (by norm_num) h1⟩
  · intro hn
    rw [normalize_eq]
    refine if_neg ?_
    rintro ⟨hs, hneg⟩
    exact hn ⟨hs, hneg_iff hneg⟩
  · rw [normalize_eq]
    split_ifs with hc
    · norm_num
    · exact ⟨hlb, hub⟩
  · by_cases hc : short = false ∧ max (-1) (min 1 e) < 0
    · have hv : normalize_exposure short e = 0 := by
        rw [normalize_eq]
        exact if_pos hc
      rw [hv, normalize_eq short 0]
      have hm : max (-1) (min 1 (0 : ℚ)) = 0 := by norm_num
      rw [hm]
      rw [if_neg (fun hx => lt_irrefl (0 : ℚ) hx.2)]
    · have hv : normalize_exposure short e = max (-1) (min 1 e) := by
        rw [normalize_eq]
        exact if_neg hc
      rw [hv, normalize_eq short (max (-1) (min 1 e))]
      have hm : max (-1) (min 1 (max (-1) (min 1 e))) = max (-1) (min 1 e) := by
        rw [min_eq_right hub]
        exact max_eq_right hlb
      rw [hm, if_neg hc]

/-- C6 witness: a negative raw exposure on a long-only instrument is
normalized to exactly 0. -/
theorem C6_witness : normalize_exposure false (-1/2) = 0 :=
  (C6_normalize_clamp_suppress false (-1/2)).1 rfl (by norm_num)

/-- C8 (confirmed): a failed upstream fetch (`None`) for one instrument
leaves the ledger untouched for that instrument, and a batch containing
such an instrument reconciles exactly as the batch without it — the
failure neither alters nor blocks any other instrument. -/
theorem C8_fetch_failure_isolated :
    ∀ (ps : Positions) (pre post : List SyncInput) (sym : SymbolInfo)
      (price : Option ℚ) (reason : String) (now : ℕ),
      sync_one ps sym none price reason now = ps ∧
      sync_all_positions ps
          (pre ++ { sym := sym, fetched := none, current_price := price } :: post)
          reason now =
        sync_all_positions ps (pre ++ post) reason now := by
  intro ps pre post sym price reason now
  refine ⟨rfl, ?_⟩
  simp only [sync_all_positions, List.foldl_append, List.foldl_cons, sync_one]

/-- C10 (confirmed): in the morning/late-session sync body, when the
newly fetched and normalized exposure differs from the stored exposure
(0 for a missing record) by at most 0.001, the ledger is left completely
unchanged. -/
theorem C10_tolerance_skip :
    ∀ (ps : Positions) (sym : SymbolInfo) (raw : ℚ) (price : Option ℚ)
      (reason : String) (now : ℕ),
      |normalize_exposure sym.allow_short raw -
          ((ps sym.symbol).map PositionRecord.target_position).getD 0| ≤ 1 / 1000 →
      check_and_sync_one ps sym (some raw) price reason now = ps := by
  intro ps sym raw price reason now h
  rw [check_one_eq]
  exact if_neg (not_lt.2 h)

/-- C10 witness: fetched exposure 0 against an empty ledger entry is
within tolerance, so the morning sync body is the identity. -/
theorem C10_witness :
    check_and_sync_one empty_positions
      ⟨"000001.SZ", MarketType.STOCK, "PAB", false, 1, 200000⟩
      (some 0) (some 10) "早盘同步" 1 = empty_positions :=
  C10_tolerance_skip empty_positions
    ⟨"000001.SZ", MarketType.STOCK, "PAB", false, 1, 200000⟩ 0 (some 10)
    "早盘同步" 1
    (by norm_num [normalize_exposure, empty_positions])

/-- C5 (confirmed): for every positive price the computed unit count
equals `sign(e) * floor(|allocatedCapital * leverage * e| / p / lotSize) * lotSize`;
its magnitude never exceeds the target notional divided by the price, it
is always a multiple of the lot size, and zero exposure yields exactly 0
units. -/
theorem C5_unit_sizing_formula :
    ∀ (sym : SymbolInfo) (e p : ℚ), 0 < p →
      calculate_target_units sym (some p) e =
        (if 0 < e then 1 else if e < 0 then -1 else 0) *
          (⌊|sym.per_symbol_capital * (sym.leverage : ℚ) * e| / p /
              (min_lots sym.market_type : ℚ)⌋ * min_lots sym.market_type) ∧
      (|calculate_target_units sym (some p) e| : ℚ) ≤
        |sym.per_symbol_capital * (sym.leverage : ℚ) * e| / p ∧
      min_lots sym.market_type ∣ calculate_target_units sym (some p) e ∧
      (e = 0 → calculate_target_units sym (some p) e = 0) := by
  intro sym e p hp
  have hLq : (0 : ℚ) < (min_lots sym.market_type : ℚ) := by
    exact_mod_cast min_lots_pos sym.market_type
  have hx : 0 ≤ |sym.per_symbol_capital * (sym.leverage : ℚ) * e| / p /
      (min_lots sym.market_type : ℚ) :=
    div_nonneg (div_nonneg (abs_nonneg _) hp.le) hLq.le
  have hval : calculate_target_units sym (some p) e =
      if 0 ≤ e then
        pyInt (|sym.per_symbol_capital * (sym.leverage : ℚ) * e| / p /
          (min_lots sym.market_type : ℚ)) * min_lots sym.market_type
      else
        -(pyInt (|sym.per_symbol_capital * (sym.leverage : ℚ) * e| / p /
          (min_lots sym.market_type : ℚ)) * min_lots sym.market_type) := by
    simp only [calculate_target_units]
    rw [if_neg (not_le.2 hp)]
  have hfl : (0 : ℤ) ≤ ⌊|sym.per_symbol_capital * (sym.leverage : ℚ) * e| / p /
      (min_lots sym.market_type : ℚ)⌋ := Int.floor_nonneg.2 hx
  have hbound : (⌊|sym.per_symbol_capital * (sym.leverage : ℚ) * e| / p /
        (min_lots sym.market_type : ℚ)⌋ : ℚ) * (min_lots sym.market_type : ℚ) ≤
      |sym.per_symbol_capital * (sym.leverage : ℚ) * e| / p := by
    calc (⌊|sym.per_symbol_capital * (sym.leverage : ℚ) * e| / p /
            (min_lots sym.market_type : ℚ)⌋ : ℚ) * (min_lots sym.market_type : ℚ)
        ≤ (|sym.per_symbol_capital * (sym.leverage : ℚ) * e| / p /
            (min_lots sym.market_type : ℚ)) * (min_lots sym.market_type : ℚ) :=
          mul_le_mul_of_nonneg_right (Int.floor_le _) hLq.le
      _ = |sym.per_symbol_capital * (sym.leverage : ℚ) * e| / p :=
          div_mul_cancel₀ _ hLq.ne'
  have hnn : (0 : ℚ) ≤ (⌊|sym.per_symbol_capital * (sym.leverage : ℚ) * e| / p /
        (min_lots sym.market_type : ℚ)⌋ : ℚ) * (min_lots sym.market_type : ℚ) :=
    mul_nonneg (Int.cast_nonneg.2 hfl) hLq.le
  rcases lt_trichotomy e 0 with he | he | he
  · have hunits : calculate_target_units sym (some p) e =
        -(⌊|sym.per_symbol_capital * (sym.leverage : ℚ) * e| / p /
            (min_lots sym.market_type : ℚ)⌋ * min_lots sym.market_type) := by
      rw [hval, if_neg (not_le.2 he), pyInt_of_nonneg hx]
    refine ⟨?_, ?_, ?_, fun h0 => absurd (h0 ▸ he) (lt_irrefl 0)⟩
    · rw [hunits, if_neg (not_lt.2 he.le), if_pos he, neg_one_mul]
    · rw [hunits]
      push_cast
      rw [abs_neg, abs_of_nonneg hnn]
      exact hbound
    · rw [hunits]
      exact dvd_neg.2 (dvd_mul_left _ _)
  · subst he
    have hu : calculate_target_units sym (some p) 0 = 0 := by
      rw [hval, if_pos le_rfl]
      simp [pyInt]
    refine ⟨?_, ?_, ?_, fun _ => hu⟩
    · rw [hu]
      simp
    · rw [hu]
      simp
    · rw [hu]
      exact dvd_zero _
  · have hunits : calculate_target_units sym (some p) e =
        ⌊|sym.per_symbol_capital * (sym.leverage : ℚ) * e| / p /
            (min_lots sym.market_type : ℚ)⌋ * min_lots sym.market_type := by
      rw [hval, if_pos he.le, pyInt_of_nonneg hx]
    refine ⟨?_, ?_, ?_, fun h0 => absurd (h0 ▸ he) (lt_irrefl 0)⟩
    · rw [hunits, if_pos he, one_mul]
    · rw [hunits]
      push_cast
      rw [abs_of_nonneg hnn]
      exact hbound
    · rw [hunits]
      exact dvd_mul_left _ _

/-- C5 witness: the spec's futures scenario — capital 50000, leverage 10,
price 2500, exposure -0.4, lot size 1 — sizes to exactly -80 units, a
multiple of the lot size. -/
theorem C5_witness :
    calculate_target_units
      ⟨"ICL1.CFX", MarketType.FUTURES, "IC500", true, 10, 50000⟩
      (some 2500) (-2/5) = -80 ∧
    min_lots MarketType.FUTURES ∣
      calculate_target_units
        ⟨"ICL1.CFX", MarketType.FUTURES, "IC500", true, 10, 50000⟩
        (some 2500) (-2/5) :=
  ⟨by norm_num [calculate_target_units, pyInt, min_lots],
    (C5_unit_sizing_formula
      ⟨"ICL1.CFX", MarketType.FUTURES, "IC500", true, 10, 50000⟩
      (-2/5) 2500 (by norm_num)).2.2.1⟩

/-- C7 (confirmed): when the classified transition is `"保持不变"`
(Unchanged) the ledger — timestamp included — is left untouched, and
reconciling the same instrument twice in a row with the identical fetched
exposure makes the second reconciliation a complete no-op. -/
theorem C7_unchanged_noop_idempotent :
    ∀ (ps : Positions) (sym : SymbolInfo) (fetched : Option ℚ)
      (price1 price2 : Option ℚ) (r1 r2 : String) (t1 t2 : ℕ) (tp : ℚ),
      (get_position_action
          (((ps sym.symbol).getD (default_position sym)).target_position)
          tp sym.allow_short = "保持不变" →
        execute_position_adjustment ps sym price1 tp r1 t1 = ps) ∧
      sync_one (sync_one ps sym fetched price1 r1 t1) sym fetched price2 r2 t2 =
        sync_one ps sym fetched price1 r1 t1 := by
  intro ps sym fetched price1 price2 r1 r2 t1 t2 tp
  refine ⟨fun h => execute_noop ps sym price1 tp r1 t1 h, ?_⟩
  cases fetched with
  | none => rfl
  | some raw =>
    rw [sync_one_eq_execute, sync_one_eq_execute]
    by_cases h : get_position_action
        (((ps sym.symbol).getD (default_position sym)).target_position)
        (normalize_exposure sym.allow_short raw) sym.allow_short = "保持不变"
    · rw [execute_noop ps sym price1 _ r1 t1 h, execute_noop ps sym price2 _ r2 t2 h]
    · have hs1 := execute_apply_eq ps sym price1 _ r1 t1 h
      refine execute_noop _ sym price2 _ r2 t2 ?_
      rw [hs1]
      exact gpa_self (normalize_exposure sym.allow_short raw) sym.allow_short

/-- C7 witness: adjusting to the already-stored exposure (0 against an
empty ledger) is classified Unchanged and leaves the ledger untouched. -/
theorem C7_witness :
    execute_position_adjustment empty_positions
      ⟨"000001.SZ", MarketType.STOCK, "PAB", false, 1, 200000⟩
      (some 10) 0 "早盘同步" 2 = empty_positions :=
  (C7_unchanged_noop_idempotent empty_positions
    ⟨"000001.SZ", MarketType.STOCK, "PAB", false, 1, 200000⟩
    none (some 10) (some 10) "早盘同步" "早盘同步" 2 2 0).1
    (gpa_self 0 false)

/-- C3 (confirmed): starting from the empty ledger, after any sequence of
startup/morning/late reconciliation runs in which every batch entry for a
given identifier is a long-only instrument (`allow_short = false`), the
record stored under that identifier always has `targetExposure ≥ 0` and
`unitCount ≥ 0` — no short position is ever produced for a long-only
instrument. -/
theorem C3_long_only_never_short :
    ∀ (runs : List SyncRun) (key : String),
      (∀ run ∈ runs, ∀ inp ∈ run.batch,
        inp.sym.symbol = key → inp.sym.allow_short = false) →
      long_only_ok (run_all runs) key := by
  intro runs key hb
  exact long_only_foldl key runs empty_positions hb (long_only_empty key)

/-- C3 witness: one startup run over a single long-only instrument with a
fetched exposure of 0.5 yields a ledger satisfying the long-only
invariant at that instrument's identifier. -/
theorem C3_witness :
    long_only_ok (run_all [⟨SyncKind.startup,
      [⟨⟨"000001.SZ", MarketType.STOCK, "PAB", false, 1, 200000⟩,
        some (1/2), some 10⟩], "启动同步", 1⟩]) "000001.SZ" :=
  C3_long_only_never_short _ "000001.SZ" (by
    intro run hr inp hi hkey
    rw [List.mem_singleton] at hr
    subst hr
    rw [List.mem_singleton] at hi
    subst hi
    rfl)

/-- C2 counterexample: a reachable ledger state (one startup run, stock
with capital 200000, fetched exposure 0.0001, price 10) stores a record
with `current_units = 0` but `position_type = "long"` — the stored
positionType does not equal the classification derived from the unit
count's sign. -/
theorem C2_counterexample :
    run_all [⟨SyncKind.startup,
      [⟨⟨"000001.SZ", MarketType.STOCK, "PAB", false, 1, 200000⟩,
        some (1/10000), some 10⟩], "启动同步", 1⟩] "000001.SZ" =
      some ⟨1/10000, 0, "long", 200000, 1, "启动同步",
        MarketType.STOCK, "PAB", 1⟩ ∧
    ("long" : String) ≠ position_type_from_units 0 := by
  constructor
  · norm_num [run_all, apply_run, sync_all_positions, sync_one,
      execute_position_adjustment, normalize_exposure, calculate_target_units,
      get_position_action, pyInt, min_lots, position_type_of, default_position,
      empty_positions, min_def, max_def,
      (show ("建多仓" : String) ≠ "保持不变" by decide)]
  · decide

/-- C2 (corrected): the stored `position_type` is derived from the sign
of the stored `target_position` (not from `current_units`): in every
reachable ledger state each record satisfies
`position_type = position_type_of target_position`. -/
theorem C2_type_follows_target_exposure :
    ∀ (runs : List SyncRun) (key : String) (r : PositionRecord),
      run_all runs key = some r →
      r.position_type = position_type_of r.target_position := by
  intro runs key r hr
  exact type_ok_foldl key runs empty_positions (type_ok_empty key) r hr

/-- C2 witness: the amended invariant instantiated on the concrete
reachable record of the counterexample run. -/
theorem C2_witness :
    (PositionRecord.mk (1/10000) 0 "long" 200000 1 "启动同步"
        MarketType.STOCK "PAB" 1).position_type =
      position_type_of
        (PositionRecord.mk (1/10000) 0 "long" 200000 1 "启动同步"
          MarketType.STOCK "PAB" 1).target_position :=
  C2_type_follows_target_exposure
    [⟨SyncKind.startup,
      [⟨⟨"000001.SZ", MarketType.STOCK, "PAB", false, 1, 200000⟩,
        some (1/10000), some 10⟩], "启动同步", 1⟩] "000001.SZ" _
    (by norm_num [run_all, apply_run, sync_all_positions, sync_one,
      execute_position_adjustment, normalize_exposure, calculate_target_units,
      get_position_action, pyInt, min_lots, position_type_of, default_position,
      empty_positions, min_def, max_def,
      (show ("建多仓" : String) ≠ "保持不变" by decide)])

/-- C1 counterexample: after a first startup run stores a record with
exposure 0.5 and 20 units, a second run with an unavailable price
(`none`) and a transition that is not Unchanged (new exposure 0.8,
classified "增多仓") does not skip the reconciliation: the record is
overwritten (exposure 0.8, units forced to 0, fresh timestamp) instead of
being left exactly as it was. -/
theorem C1_counterexample :
    get_position_action (1/2) (4/5) true ≠ "保持不变" ∧
    run_all [⟨SyncKind.startup,
      [⟨⟨"ICL1.CFX", MarketType.FUTURES, "IC500", true, 1, 100000⟩,
        some (1/2), some 2500⟩], "r1", 1⟩] "ICL1.CFX" =
      some ⟨1/2, 20, "long", 100000, 1, "r1", MarketType.FUTURES, "IC500", 1⟩ ∧
    run_all [⟨SyncKind.startup,
      [⟨⟨"ICL1.CFX", MarketType.FUTURES, "IC500", true, 1, 100000⟩,
        some (1/2), some 2500⟩], "r1", 1⟩,
      ⟨SyncKind.startup,
      [⟨⟨"ICL1.CFX", MarketType.FUTURES, "IC500", true, 1, 100000⟩,
        some (4/5), none⟩], "r2", 2⟩] "ICL1.CFX" =
      some ⟨4/5, 0, "long", 100000, 2, "r2", MarketType.FUTURES, "IC500", 1⟩ ∧
    (⟨4/5, 0, "long", 100000, 2, "r2", MarketType.FUTURES, "IC500", 1⟩ :
        PositionRecord) ≠
      ⟨1/2, 20, "long", 100000, 1, "r1", MarketType.FUTURES, "IC500", 1⟩ := by
  refine ⟨?_, ?_, ?_, ?_⟩
  · norm_num [get_position_action,
      (show ("增多仓" : String) ≠ "保持不变" by decide)]
  · norm_num [run_all, apply_run, sync_all_positions, sync_one,
      execute_position_adjustment, normalize_exposure, calculate_target_units,
      get_position_action, pyInt, min_lots, position_type_of, default_position,
      empty_positions, min_def, max_def,
      (show ("建多仓" : String) ≠ "保持不变" by decide)]
  · norm_num [run_all, apply_run, sync_all_positions, sync_one,
      execute_position_adjustment, normalize_exposure, calculate_target_units,
      get_position_action, pyInt, min_lots, position_type_of, default_position,
      empty_positions, min_def, max_def,
      (show ("建多仓" : String) ≠ "保持不变" by decide),
      (show ("增多仓" : String) ≠ "保持不变" by decide)]
  · intro h
    have h2 := congrArg PositionRecord.current_units h
    norm_num at h2

/-- C1 (corrected): when the current price is unavailable or ≤ 0,
`calculate_target_units` returns 0 units (not an error), and a
non-Unchanged reconciliation is not skipped: the instrument's record is
overwritten with the new target exposure, a unit count of 0, a position
type derived from the new exposure, and a fresh timestamp and reason. -/
theorem C1_bad_price_zero_units_still_writes :
    ∀ (ps : Positions) (sym : SymbolInfo) (price : Option ℚ) (tp : ℚ)
      (reason : String) (now : ℕ),
      (∀ p, price = some p → p ≤ 0) →
      calculate_target_units sym price tp = 0 ∧
      (get_position_action
          (((ps sym.symbol).getD (default_position sym)).target_position)
          tp sym.allow_short ≠ "保持不变" →
        execute_position_adjustment ps sym price tp reason now sym.symbol =
          some { target_position := tp
                 current_units := 0
                 position_type := position_type_of tp
                 allocated_capital :=
                   ((ps sym.symbol).getD (default_position sym)).allocated_capital
                 last_update := now
                 reason := reason
                 market_type := sym.market_type
                 symbol_name := sym.name
                 leverage := sym.leverage }) := by
  intro ps sym price tp reason now hp
  have hz : calculate_target_units sym price tp = 0 := by
    cases price with
    | none => rfl
    | some p =>
      simp only [calculate_target_units]
      rw [if_pos (hp p rfl)]
  refine ⟨hz, fun h => ?_⟩
  rw [execute_apply_eq ps sym price tp reason now h]
  simp only [written_record, hz]

/-- C1 witness: the amended behavior on a concrete input — price `none`,
empty ledger, new exposure 0.5 (classified "建多仓"): the ledger gains a
record with exposure 0.5 and 0 units. -/
theorem C1_witness :
    execute_position_adjustment empty_positions
      ⟨"000001.SZ", MarketType.STOCK, "PAB", false, 1, 200000⟩
      none (1/2) "启动同步" 3 "000001.SZ" =
      some ⟨1/2, 0, position_type_of (1/2), 200000, 3, "启动同步",
        MarketType.STOCK, "PAB", 1⟩ :=
  (C1_bad_price_zero_units_still_writes empty_positions
    ⟨"000001.SZ", MarketType.STOCK, "PAB", false, 1, 200000⟩
    none (1/2) "启动同步" 3 (fun p hp => nomatch hp)).2
    (by norm_num [get_position_action, empty_positions, default_position,
      (show ("建多仓" : String) ≠ "保持不变" by decide)])

/-- C9 counterexample: the first reconciliation of an instrument with a
successfully fetched exposure of 0 classifies as Unchanged and creates
no record at all — afterwards zero (not exactly one) PositionRecords
exist for that identifier. -/
theorem C9_counterexample :
    run_all [⟨SyncKind.startup,
      [⟨⟨"000001.SZ", MarketType.STOCK, "PAB", false, 1, 200000⟩,
        some 0, some 10⟩], "启动同步", 1⟩] "000001.SZ" = none := by
  norm_num [run_all, apply_run, sync_all_positions, sync_one,
    execute_position_adjustment, normalize_exposure, get_position_action,
    default_position, empty_positions, min_def, max_def]

/-- C9 (corrected): a PositionRecord first appears at the first
reconciliation whose classified transition is not "保持不变" (when the
transition is Unchanged, no record is created); once present, a record is
never deleted by any later startup or morning/late reconciliation step. -/
theorem C9_lazy_creation_never_deleted :
    ∀ (ps : Positions) (sym : SymbolInfo) (f price : Option ℚ)
      (reason : String) (now : ℕ) (key : String) (raw : ℚ),
      ((ps key).isSome → ((sync_one ps sym f price reason now) key).isSome) ∧
      ((ps key).isSome →
        ((check_and_sync_one ps sym f price reason now) key).isSome) ∧
      (f = some raw →
        get_position_action
            (((ps sym.symbol).getD (default_position sym)).target_position)
            (normalize_exposure sym.allow_short raw) sym.allow_short ≠ "保持不变" →
        ((sync_one ps sym f price reason now) sym.symbol).isSome) := by
  intro ps sym f price reason now key raw
  refine ⟨?_, ?_, ?_⟩
  · intro h
    cases f with
    | none => exact h
    | some raw2 =>
      rw [sync_one_eq_execute]
      exact isSome_execute ps sym price _ reason now key h
  · intro h
    cases f with
    | none => exact h
    | some raw2 =>
      rw [check_one_eq]
      split_ifs with hd
      · exact isSome_execute ps sym price _ reason now key h
      · exact h
  · intro hf ha
    subst hf
    rw [sync_one_eq_execute, execute_apply_eq ps sym price _ reason now ha]
    rfl

/-- C9 witness: a first reconciliation whose transition is "建多仓"
(fetched exposure 0.5 against an empty ledger) does create a record. -/
theorem C9_witness :
    ((sync_one empty_positions
        ⟨"000001.SZ", MarketType.STOCK, "PAB", false, 1, 200000⟩
        (some (1/2)) (some 10) "启动同步" 1) "000001.SZ").isSome :=
  (C9_lazy_creation_never_deleted empty_positions
    ⟨"000001.SZ", MarketType.STOCK, "PAB", false, 1, 200000⟩
    (some (1/2)) (some 10) "启动同步" 1 "000001.SZ" (1/2)).2.2 rfl
    (by norm_num [get_position_action, empty_positions, default_position,
      normalize_exposure, min_def, max_def,
      (show ("建多仓" : String) ≠ "保持不变" by decide)])

end UQTool
